import Mathlib

/-!
Verification of the ai-commits-cli generation pipeline.

Shallow embedding of the relevant source functions:
  - src/utils/openai.ts: sanitizeMessage, deduplicateMessages, generateCommitMessage
  - src/utils/config.ts: configParsers, readConfigFile normalization, getConfig
  - src/utils/git.ts: excludeFromDiff, filesToExclude, getStagedDiff
  - src/commands/aicommits.ts: applyBranchPrefix, createCommit, the handler's
    effective use-branch-prefix computation and candidate prefixing loop.

Strings are modelled over their character lists; JavaScript regex operations
are translated to explicit structural functions with the same semantics on
the ASCII fragment the program manipulates.
-/

/-! ## Character classes (JS regex classes restricted to ASCII) -/

/-- JS whitespace for trim and the regex class backslash-s (ASCII fragment). -/
def jsWhitespaceChar (c : Char) : Bool :=
  c == ' ' || c == '\t' || c == '\n' || c == '\r' || c == '\x0b' || c == '\x0c'

/-- Characters removed by the regex class matching newline and carriage return. -/
def newlineChar (c : Char) : Bool :=
  c == '\n' || c == '\r'

/-- JS word character class: letters, digits, underscore. -/
def wordChar (c : Char) : Bool :=
  c.isAlpha || c.isDigit || c == '_'

/-! ## JS String.prototype.trim -/

/-- Characters of a string after JS trim: whitespace dropped from both ends. -/
def jsTrimList (l : List Char) : List Char :=
  ((l.dropWhile jsWhitespaceChar).reverse.dropWhile jsWhitespaceChar).reverse

/-- JS String.prototype.trim. -/
def jsTrim (s : String) : String :=
  ⟨jsTrimList s.data⟩

/-! ## sanitizeMessage (src/utils/openai.ts)

`message.trim().replace(/[\n\r]/g, "").replace(/(\w)\.$/, "$1")` -/

/-- Global removal of newline and carriage-return characters. -/
def stripNewlines (l : List Char) : List Char :=
  l.filter (fun c => !newlineChar c)

/-- End-anchored replace of a word character followed by a period, on the
reversed character list: drops the final period when preceded by a word
character. -/
def dropTrailingPeriodRev (l : List Char) : List Char :=
  match l with
  | a :: c :: rest => if a = '.' ∧ wordChar c then c :: rest else a :: c :: rest
  | other => other

/-- The replace of the end-anchored word-character-then-period pattern. -/
def dropTrailingPeriod (l : List Char) : List Char :=
  (dropTrailingPeriodRev l.reverse).reverse

/-- Whether a character list ends with a word character followed by a period
(the end-anchored pattern of the final replace). -/
def endsWithWordDot (l : List Char) : Bool :=
  match l.reverse with
  | a :: c :: _ => decide (a = '.') && wordChar c
  | _ => false

/-- Core of sanitizeMessage over character lists. -/
def sanitizeCore (l : List Char) : List Char :=
  dropTrailingPeriod (stripNewlines (jsTrimList l))

/-- sanitizeMessage from src/utils/openai.ts. -/
def sanitizeMessage (s : String) : String :=
  ⟨sanitizeCore s.data⟩

/-! ## deduplicateMessages (src/utils/openai.ts)

`Array.from(new Set(array))`: keeps the first occurrence of each string,
preserving first-seen order. -/

/-- Deduplication keeping first occurrences, with an accumulator of strings
already emitted. -/
def dedupAux : List String → List String → List String
  | [], _ => []
  | x :: xs, seen =>
    if x ∈ seen then dedupAux xs seen else x :: dedupAux xs (x :: seen)

/-- deduplicateMessages from src/utils/openai.ts. -/
def deduplicateMessages (l : List String) : List String :=
  dedupAux l []

/-- The sanitize-then-deduplicate post-processing applied to the candidate
sequence in generateCommitMessage. -/
def sanitizeAndDedup (l : List String) : List String :=
  deduplicateMessages (l.map sanitizeMessage)

/-- Invariant of sanitized character lists: no whitespace at either end, no
newline anywhere, and no final word-character-then-period pattern. -/
def sanitizedChars (l : List Char) : Prop :=
  (∀ h, l.head? = some h → jsWhitespaceChar h = false) ∧
  (∀ h, l.getLast? = some h → jsWhitespaceChar h = false) ∧
  (∀ c ∈ l, newlineChar c = false) ∧
  endsWithWordDot l = false

deriving instance DecidableEq for Except

/-! ## Configuration (src/utils/config.ts)

Raw configuration: the optional string value of each recognized key, as it
appears in the CLI/environment override map or in the parsed persisted file.
A missing key is none; JS falsy handling treats the empty string like a
missing value inside the individual parsers. -/

structure RawConfig where
  OPENAI_KEY : Option String
  locale : Option String
  generate : Option String
  commitType : Option String
  proxy : Option String
  model : Option String
  timeout : Option String
  maxLength : Option String
  useBranchPrefix : Option String
deriving DecidableEq

/-- The recognized configuration keys, in the iteration order of
Object.keys(configParsers). -/
inductive ConfigKey
  | openaiKey
  | locale
  | generate
  | commitType
  | proxy
  | model
  | timeout
  | maxLength
  | useBranchPrefix
deriving DecidableEq

/-- Look up the raw value of a key. -/
def rawField (r : RawConfig) (k : ConfigKey) : Option String :=
  match k with
  | .openaiKey => r.OPENAI_KEY
  | .locale => r.locale
  | .generate => r.generate
  | .commitType => r.commitType
  | .proxy => r.proxy
  | .model => r.model
  | .timeout => r.timeout
  | .maxLength => r.maxLength
  | .useBranchPrefix => r.useBranchPrefix

/-- A raw configuration with every key absent. -/
def emptyRaw : RawConfig :=
  ⟨none, none, none, none, none, none, none, none, none⟩

/-- The validated configuration produced by getConfig. OPENAI_KEY is an
Option because in suppressed mode a failing key that has no entry in
DEFAULT_CONFIG is left unset. proxy is optional in the source as well. -/
structure ValidConfig where
  OPENAI_KEY : Option String
  locale : String
  generate : Nat
  commitType : String
  proxy : Option String
  model : String
  timeout : Nat
  maxLength : Nat
  useBranchPrefix : Bool
deriving DecidableEq

/-- Error message built by parseAssert. -/
def invalidProp (name msg : String) : String :=
  "Invalid config property " ++ name ++ ": " ++ msg

/-- Error message for a missing API key. -/
def openAIKeyMissingMsg : String :=
  "Please set your OpenAI API key via `aicommits config set OPENAI_KEY=<your token>`"

/-- Lower-case a string character-wise (JS toLowerCase, ASCII fragment). -/
def lowerStr (s : String) : String :=
  ⟨s.data.map Char.toLower⟩

/-- `String(value).toLowerCase().trim()` as used for the boolean key. -/
def lowerTrim (s : String) : String :=
  jsTrim (lowerStr s)

/-- Truthy tokens accepted for use-branch-prefix. -/
def truthyTokens : List String := ["true", "1", "yes", "y", "on"]

/-- Falsy tokens accepted for use-branch-prefix. -/
def falsyTokens : List String := ["false", "0", "no", "n", "off"]

/-- Decimal value of a digit string (JS Number on a digit-only string). -/
def digitsToNat (l : List Char) : Nat :=
  l.foldl (fun a c => a * 10 + (c.toNat - '0'.toNat)) 0

/-- configParsers.OPENAI_KEY. -/
def parseOpenAIKey (v : Option String) : Except String String :=
  match v with
  | none => .error openAIKeyMissingMsg
  | some k =>
    if k = "" then .error openAIKeyMissingMsg
    else if List.isPrefixOf "sk-".data k.data then .ok k
    else .error (invalidProp "OPENAI_KEY" "Must start with \"sk-\"")

/-- configParsers.OPENAI_KEY with its result injected into the optional slot
of the validated configuration. -/
def parseOpenAIKeyOpt (v : Option String) : Except String (Option String) :=
  (parseOpenAIKey v).map some

/-- configParsers.locale. -/
def parseLocale (v : Option String) : Except String String :=
  match v with
  | none => .ok "en"
  | some s =>
    if s = "" then .ok "en"
    else if s.data.all (fun c => c.isAlpha || c == '-') then .ok s
    else .error (invalidProp "locale"
      "Must be a valid locale (letters and dashes/underscores). See: https://wikipedia.org/wiki/List_of_ISO_639-1_codes")

/-- configParsers.generate. -/
def parseGenerate (v : Option String) : Except String Nat :=
  match v with
  | none => .ok 1
  | some s =>
    if s = "" then .ok 1
    else if !(s.data.all Char.isDigit) then
      .error (invalidProp "generate" "Must be an integer")
    else if digitsToNat s.data = 0 then
      .error (invalidProp "generate" "Must be greater than 0")
    else if 5 < digitsToNat s.data then
      .error (invalidProp "generate" "Must be less or equal to 5")
    else .ok (digitsToNat s.data)

/-- configParsers.type. -/
def parseCommitType (v : Option String) : Except String String :=
  match v with
  | none => .ok ""
  | some s =>
    if s = "" then .ok ""
    else if s = "conventional" then .ok s
    else .error (invalidProp "type" "Invalid commit type")

/-- configParsers.proxy. -/
def parseProxy (v : Option String) : Except String (Option String) :=
  match v with
  | none => .ok none
  | some s =>
    if s = "" then .ok none
    else if List.isPrefixOf "http://".data s.data || List.isPrefixOf "https://".data s.data then
      .ok (some s)
    else .error (invalidProp "proxy" "Must be a valid URL")

/-- configParsers.model. -/
def parseModel (v : Option String) : Except String String :=
  match v with
  | none => .ok "gpt-3.5-turbo"
  | some s =>
    if s = "" then .ok "gpt-3.5-turbo"
    else .ok s

/-- configParsers.timeout. -/
def parseTimeout (v : Option String) : Except String Nat :=
  match v with
  | none => .ok 10000
  | some s =>
    if s = "" then .ok 10000
    else if !(s.data.all Char.isDigit) then
      .error (invalidProp "timeout" "Must be an integer")
    else if digitsToNat s.data < 500 then
      .error (invalidProp "timeout" "Must be greater than 500ms")
    else .ok (digitsToNat s.data)

/-- configParsers.max-length. -/
def parseMaxLength (v : Option String) : Except String Nat :=
  match v with
  | none => .ok 50
  | some s =>
    if s = "" then .ok 50
    else if !(s.data.all Char.isDigit) then
      .error (invalidProp "max-length" "Must be an integer")
    else if digitsToNat s.data < 20 then
      .error (invalidProp "max-length" "Must be greater than 20 characters")
    else .ok (digitsToNat s.data)

/-- configParsers.use-branch-prefix. -/
def parseUseBranchPrefixOpt (v : Option String) : Except String Bool :=
  match v with
  | none => .ok false
  | some s =>
    if s = "" then .ok false
    else if truthyTokens.contains (lowerTrim s) then .ok true
    else if falsyTokens.contains (lowerTrim s) then .ok false
    else .error (invalidProp "use-branch-prefix" "Must be either \x27true\x27 or \x27false\x27")

/-- The normalization readConfigFile applies to the persisted
use-branch-prefix value: a truthy token is rewritten to the literal "true". -/
def normUbpValue (v : Option String) : Option String :=
  match v with
  | none => none
  | some s => if truthyTokens.contains (lowerTrim s) then some "true" else some s

/-- readConfigFile's post-parse fix of the persisted configuration. -/
def normalizeFileConfig (f : RawConfig) : RawConfig :=
  { f with useBranchPrefix := normUbpValue f.useBranchPrefix }

/-- JS nullish coalescing on optional raw values. -/
def coalesce (a b : Option String) : Option String :=
  match a with
  | none => b
  | some v => some v

/-- The per-key raw-value selection inside getConfig's loop: the special case
keeps the persisted "true" for use-branch-prefix, every other key takes the
CLI/environment override when present, else the persisted value. `fileN` is
the persisted configuration after readConfigFile's normalization. -/
def selectRawValue (cli fileN : RawConfig) (k : ConfigKey) : Option String :=
  if k = ConfigKey.useBranchPrefix ∧ rawField fileN k = some "true" then rawField fileN k
  else coalesce (rawField cli k) (rawField fileN k)

/-- One key's resolution: strict mode propagates the parser's error,
suppressed mode swallows it and uses the documented fallback (the
DEFAULT_CONFIG entry, or an unset slot for keys without one). -/
def resolveKey {α : Type} (suppress : Bool) (p : Option String → Except String α)
    (fallback : α) (v : Option String) : Except String α :=
  if suppress then
    match p v with
    | .ok r => .ok r
    | .error _ => .ok fallback
  else p v

/-- getConfig from src/utils/config.ts: reads the (already parsed) persisted
configuration, normalizes it, then resolves each key in Object.keys order with
the per-key raw-value selection. -/
def getConfig (cli file : RawConfig) (suppress : Bool) : Except String ValidConfig := do
  let key ← resolveKey suppress parseOpenAIKeyOpt none
    (selectRawValue cli (normalizeFileConfig file) ConfigKey.openaiKey)
  let loc ← resolveKey suppress parseLocale "en"
    (selectRawValue cli (normalizeFileConfig file) ConfigKey.locale)
  let gen ← resolveKey suppress parseGenerate 1
    (selectRawValue cli (normalizeFileConfig file) ConfigKey.generate)
  let cty ← resolveKey suppress parseCommitType ""
    (selectRawValue cli (normalizeFileConfig file) ConfigKey.commitType)
  let prx ← resolveKey suppress parseProxy none
    (selectRawValue cli (normalizeFileConfig file) ConfigKey.proxy)
  let mdl ← resolveKey suppress parseModel "gpt-3.5-turbo"
    (selectRawValue cli (normalizeFileConfig file) ConfigKey.model)
  let tmo ← resolveKey suppress parseTimeout 10000
    (selectRawValue cli (normalizeFileConfig file) ConfigKey.timeout)
  let mxl ← resolveKey suppress parseMaxLength 50
    (selectRawValue cli (normalizeFileConfig file) ConfigKey.maxLength)
  let ubp ← resolveKey suppress parseUseBranchPrefixOpt false
    (selectRawValue cli (normalizeFileConfig file) ConfigKey.useBranchPrefix)
  return ⟨key, loc, gen, cty, prx, mdl, tmo, mxl, ubp⟩

/-- A CLI/environment override map supplying a valid API key and an explicit
use-branch-prefix override of "false". -/
def cliOverrideFalse : RawConfig :=
  { emptyRaw with OPENAI_KEY := some "sk-t", useBranchPrefix := some "false" }

/-- A persisted file supplying use-branch-prefix "true". -/
def filePersistTrue : RawConfig :=
  { emptyRaw with useBranchPrefix := some "true" }

/-! ## Branch prefix derivation (src/commands/aicommits.ts, applyBranchPrefix)

The ticket check is `branchName.match(/([A-Z]+-\d+)/i)`: the first (leftmost)
substring made of one or more ASCII letters, a hyphen, and one or more
digits; the match is re-emitted upper-cased. The fallback strips one leading
workflow segment, turns dashes/underscores into spaces, collapses whitespace
runs and trims. -/

/-- Attempt the ticket pattern anchored at the head of the list: a maximal
nonempty run of letters, then a hyphen, then a maximal nonempty run of
digits. -/
def tryTicketAt (l : List Char) : Option (List Char) :=
  if (l.takeWhile Char.isAlpha).isEmpty then none
  else
    match l.drop (l.takeWhile Char.isAlpha).length with
    | h :: rest =>
      if h = '-' then
        if (rest.takeWhile Char.isDigit).isEmpty then none
        else some (l.takeWhile Char.isAlpha ++ '-' :: rest.takeWhile Char.isDigit)
      else none
    | [] => none

/-- Leftmost match of the ticket pattern: try every start position from the
left, as the JS regex engine does. -/
def findTicket : List Char → Option (List Char)
  | [] => none
  | c :: cs =>
    match tryTicketAt (c :: cs) with
    | some m => some m
    | none => findTicket cs

/-- The workflow segments stripped by the fallback cleanup, in the order of
the regex alternation. -/
def workflowKinds : List String :=
  ["feature", "fix", "bugfix", "hotfix", "release", "chore"]

/-- `replace(/^(feature|fix|bugfix|hotfix|release|chore)\//, "")`. -/
def stripWorkflow (l : List Char) : List Char :=
  match workflowKinds.find? (fun p => List.isPrefixOf (p.data ++ ['/']) l) with
  | some p => l.drop (p.data.length + 1)
  | none => l

/-- `replace(/[-_]/g, " ")`. -/
def dashesToSpaces (l : List Char) : List Char :=
  l.map (fun c => if c == '-' || c == '_' then ' ' else c)

/-- Structural helper for the whitespace-run collapse: the flag records
whether the previous character belonged to a whitespace run (whose single
replacement space has already been emitted). -/
def collapseSpacesAux : List Char → Bool → List Char
  | [], _ => []
  | c :: cs, inRun =>
    if jsWhitespaceChar c then
      if inRun then collapseSpacesAux cs true
      else ' ' :: collapseSpacesAux cs true
    else c :: collapseSpacesAux cs false

/-- `replace(/\s+/g, " ")`: every maximal whitespace run becomes one space. -/
def collapseSpaces (l : List Char) : List Char :=
  collapseSpacesAux l false

/-- The fallback cleanup of the branch name. -/
def cleanBranchCore (l : List Char) : List Char :=
  jsTrimList (collapseSpaces (dashesToSpaces (stripWorkflow l)))

/-- The prefix derived from a branch name inside applyBranchPrefix: the
upper-cased first ticket match when one exists, otherwise the cleaned
branch name. -/
def branchPrefixOf (branchName : String) : String :=
  match findTicket branchName.data with
  | some t => ⟨t.map Char.toUpper⟩
  | none => ⟨cleanBranchCore branchName.data⟩

/-- applyBranchPrefix from src/commands/aicommits.ts. The branch lookup is an
external await that can fail; its outcome is passed in. On a disabled flag or
a failed lookup the message is returned unchanged, otherwise the derived
prefix is prepended with a colon and a space. -/
def applyBranchPrefix (branchResult : Except String String) (message : String)
    (useBranchPrefixFlag : Bool) : String :=
  if useBranchPrefixFlag then
    match branchResult with
    | .error _ => message
    | .ok branchName => branchPrefixOf branchName ++ ": " ++ message
  else message

/-! ## Orchestrator fragment (src/commands/aicommits.ts, aicommitsHandler /
createCommit) -/

/-- The handler's effective use-branch-prefix:
`if (useBranchPrefix || config["use-branch-prefix"]) config[...] = true`.
The CLI flag is an optional boolean (undefined when not passed). -/
def effectiveUbp (cliFlag : Option Bool) (cfgValue : Bool) : Bool :=
  cliFlag.getD false || cfgValue

/-- The candidate list presented for selection: when the effective flag is
set, every candidate gets the branch prefix before choices are shown. -/
def candidatesShown (branchResult : Except String String) (enabled : Bool)
    (messages : List String) : List String :=
  if enabled then messages.map (fun m => applyBranchPrefix branchResult m true)
  else messages

/-- createCommit from src/commands/aicommits.ts, restricted to the text of
the message handed to the git commit invocation: the prefix is re-applied
only when the flag argument is true. -/
def createCommitMessage (branchResult : Except String String) (message : String)
    (useBranchPrefixFlag : Bool) : String :=
  if useBranchPrefixFlag then applyBranchPrefix branchResult message true
  else message

/-- The message the handler passes to git commit when the operator selects
candidate i: the handler calls createCommit with the literal flag false. -/
def committedMessage (branchResult : Except String String) (cliFlag : Option Bool)
    (cfgValue : Bool) (messages : List String) (i : Nat) : String :=
  createCommitMessage branchResult
    ((candidatesShown branchResult (effectiveUbp cliFlag cfgValue) messages).getD i "")
    false

/-- loadConfig's serialization of the CLI boolean flag:
`options.useBranchPrefix !== undefined ? String(options.useBranchPrefix) : undefined`. -/
def cliRawOfFlag (f : Option Bool) : RawConfig :=
  { emptyRaw with useBranchPrefix := f.map (fun b => if b then "true" else "false") }

/-! ## Message generation (src/utils/openai.ts, generateCommitMessage) -/

/-- The failure shape inspected by generateCommitMessage's catch block. -/
structure ApiFailure where
  code : Option String
  respStatus : Option Nat
  respStatusText : String
  payloadMsg : Option String
  message : String
deriving DecidableEq

/-- Outcome of the remote completion call: the choice contents on success
(none for an absent message body), or a failure. -/
inductive ApiOutcome
  | success (choices : List (Option String))
  | failure (e : ApiFailure)

/-- The two error classes of the CLI: a KnownError with a user-facing
message, or an unexpected error that is rethrown. -/
inductive CliError
  | known (msg : String)
  | unknown (msg : String)
deriving DecidableEq

/-- Message for a connectivity failure. -/
def networkErrorMsg : String :=
  "Error connecting to OpenAI API. Check your internet connection."

/-- Generic status-derived message when the API payload has no message. -/
def apiGenericMsg (status : Nat) (statusText : String) : String :=
  "OpenAI API Error: " ++ toString status ++ " - " ++ statusText

/-- Message for the zero-usable-candidates condition, raised by the caller
generateMessages in src/commands/aicommits.ts. -/
def noMessagesMsg : String :=
  "No commit messages were generated. Try again."

/-- The filter `choice => choice.message?.content`: JS truthiness keeps
exactly the choices whose content is present and not the empty string. -/
def keepChoice (c : Option String) : Bool :=
  match c with
  | none => false
  | some s => s != ""

/-- The success-path post-processing of the response choices. -/
def processChoices (choices : List (Option String)) : List String :=
  deduplicateMessages ((choices.filter keepChoice).map (fun c => sanitizeMessage (c.getD "")))

/-- generateCommitMessage from src/utils/openai.ts, as a function of the
remote call's outcome. -/
def generateCommitMessage (outcome : ApiOutcome) : Except CliError (List String) :=
  match outcome with
  | .success choices => .ok (processChoices choices)
  | .failure e =>
    if e.code = some "ENOTFOUND" ∨ e.code = some "ETIMEDOUT" then
      .error (.known networkErrorMsg)
    else
      match e.respStatus with
      | some st =>
        if st ≠ 0 then
          .error (.known (match e.payloadMsg with
            | some m => if m ≠ "" then m else apiGenericMsg st e.respStatusText
            | none => apiGenericMsg st e.respStatusText))
        else .error (.unknown e.message)
      | none => .error (.unknown e.message)

/-- generateMessages from src/commands/aicommits.ts: wraps the generator and
turns an empty candidate list into the no-messages KnownError. -/
def generateMessages (outcome : ApiOutcome) : Except CliError (List String) :=
  match generateCommitMessage outcome with
  | .error e => .error e
  | .ok msgs => if msgs.length = 0 then .error (.known noMessagesMsg) else .ok msgs

/-! ## Staged-change collection (src/utils/git.ts, getStagedDiff) -/

/-- `:(exclude)${path}`. -/
def excludeFromDiff (p : String) : String :=
  ":(exclude)" ++ p

/-- The fixed default exclusions. -/
def filesToExclude : List String :=
  ["package-lock.json", "pnpm-lock.yaml", "yarn.lock", "*.lock", "dist/**", "build/**"].map
    excludeFromDiff

/-- The common diff options. -/
def diffCached : List String :=
  ["diff", "--cached", "--diff-algorithm=minimal"]

/-- Arguments of the name-only staged file query. -/
def nameOnlyArgs (excludeFiles : List String) : List String :=
  diffCached ++ ["--name-only"] ++ filesToExclude ++ excludeFiles.map excludeFromDiff

/-- Arguments of the full diff query. -/
def fullDiffArgs (excludeFiles : List String) : List String :=
  diffCached ++ filesToExclude ++ excludeFiles.map excludeFromDiff

/-- The collected staged changes. -/
structure StagedDiff where
  files : List String
  diff : String
deriving DecidableEq

/-- JS String.prototype.split on the newline character. -/
def splitOnNl : List Char → List (List Char)
  | [] => [[]]
  | c :: cs =>
    let r := splitOnNl cs
    if c == '\n' then [] :: r
    else
      match r with
      | [] => [[c]]
      | h :: t => (c :: h) :: t

/-- `files.split("\n").filter(Boolean)`. -/
def splitLinesNonEmpty (s : String) : List String :=
  ((splitOnNl s.data).map (fun l => (⟨l⟩ : String))).filter (fun x => x != "")

/-- getStagedDiff from src/utils/git.ts, as a function of the git subprocess
behaviour: gitExec maps an argument vector to the produced stdout or a
failure message. A none result is the distinguished absent state. -/
def getStagedDiff (gitExec : List String → Except String String)
    (excludeFiles : List String) : Except CliError (Option StagedDiff) :=
  match gitExec (nameOnlyArgs excludeFiles) with
  | .error msg => .error (.known ("Failed to get staged changes: " ++ msg))
  | .ok files =>
    if jsTrim files = "" then .ok none
    else
      match gitExec (fullDiffArgs excludeFiles) with
      | .error msg => .error (.known ("Failed to get staged changes: " ++ msg))
      | .ok diff => .ok (some ⟨splitLinesNonEmpty files, diff⟩)

/-! ## Helper lemmas about sanitization -/

theorem mem_dropTrailingPeriodRev {x : Char} {r : List Char}
    (hx : x ∈ dropTrailingPeriodRev r) : x ∈ r := by
  rcases r with _ | ⟨a, _ | ⟨c, rest⟩⟩
  · exact hx
  · exact hx
  · simp only [dropTrailingPeriodRev] at hx
    split at hx
    · exact List.mem_cons_of_mem _ hx
    · exact hx

theorem mem_dropTrailingPeriod {x : Char} {t : List Char}
    (hx : x ∈ dropTrailingPeriod t) : x ∈ t := by
  have h1 : x ∈ dropTrailingPeriodRev t.reverse := List.mem_reverse.mp hx
  exact List.mem_reverse.mp (mem_dropTrailingPeriodRev h1)

theorem dropTrailingPeriod_of_endsWith {t : List Char}
    (h : endsWithWordDot t = true) : dropTrailingPeriod t = t.dropLast := by
  unfold endsWithWordDot at h
  unfold dropTrailingPeriod
  rcases hr : t.reverse with _ | ⟨a, _ | ⟨c, rest⟩⟩ <;> rw [hr] at h
  · simp at h
  · simp at h
  · simp only [Bool.and_eq_true, decide_eq_true_eq] at h
    have hres : dropTrailingPeriodRev (a :: c :: rest) = c :: rest := by
      simp [dropTrailingPeriodRev, h.1, h.2]
    rw [hres]
    have ht : t = ((c :: rest).reverse) ++ [a] := by
      have := congrArg List.reverse hr
      simpa [List.reverse_cons, List.append_assoc] using this
    rw [ht, List.dropLast_concat]

theorem dropTrailingPeriod_of_not_endsWith {t : List Char}
    (h : endsWithWordDot t = false) : dropTrailingPeriod t = t := by
  unfold endsWithWordDot at h
  unfold dropTrailingPeriod
  rcases hr : t.reverse with _ | ⟨a, _ | ⟨c, rest⟩⟩ <;> rw [hr] at h
  · rw [show dropTrailingPeriodRev [] = [] from rfl]
    have := congrArg List.reverse hr
    simpa using this.symm
  · rw [show dropTrailingPeriodRev [a] = [a] from rfl]
    have := congrArg List.reverse hr
    simpa using this.symm
  · simp only [Bool.and_eq_false_iff, decide_eq_false_iff_not] at h
    have hres : dropTrailingPeriodRev (a :: c :: rest) = a :: c :: rest := by
      rw [show dropTrailingPeriodRev (a :: c :: rest) =
        if a = '.' ∧ wordChar c = true then c :: rest else a :: c :: rest from rfl]
      rw [if_neg]
      rintro ⟨h1, h2⟩
      rcases h with h | h
      · exact h h1
      · simp [h] at h2
    rw [hres]
    have := congrArg List.reverse hr
    simpa using this.symm

theorem newline_not_mem_stripNewlines {x : Char} {l : List Char}
    (hx : x ∈ stripNewlines l) : newlineChar x = false := by
  have := (List.mem_filter.mp hx).2
  simpa using this

/-- C6: for every candidate string, sanitization trims it, removes all
embedded newline characters, and removes exactly one trailing period when it
is preceded by a word character, leaving everything else unchanged:
"Fix bug.\n" becomes "Fix bug" and "Fix v1.0." becomes "Fix v1.0". -/
theorem c6_sanitize_characterization :
    sanitizeMessage "Fix bug.\n" = "Fix bug" ∧
    sanitizeMessage "Fix v1.0." = "Fix v1.0" ∧
    (∀ s : String, ∀ c ∈ (sanitizeMessage s).data, newlineChar c = false) ∧
    (∀ s : String,
      (endsWithWordDot (stripNewlines (jsTrimList s.data)) = true →
        (sanitizeMessage s).data = (stripNewlines (jsTrimList s.data)).dropLast) ∧
      (endsWithWordDot (stripNewlines (jsTrimList s.data)) = false →
        (sanitizeMessage s).data = stripNewlines (jsTrimList s.data))) := by
  refine ⟨by decide, by decide, ?_, ?_⟩
  · intro s c hc
    have hc' : c ∈ sanitizeCore s.data := hc
    exact newline_not_mem_stripNewlines (mem_dropTrailingPeriod hc')
  · intro s
    constructor
    · intro h
      show sanitizeCore s.data = _
      unfold sanitizeCore
      exact dropTrailingPeriod_of_endsWith h
    · intro h
      show sanitizeCore s.data = _
      unfold sanitizeCore
      exact dropTrailingPeriod_of_not_endsWith h

theorem c6_witness :
    newlineChar 'x' = false ∧
    (sanitizeMessage "Fix bug.\n").data = (stripNewlines (jsTrimList "Fix bug.\n".data)).dropLast :=
  ⟨c6_sanitize_characterization.2.2.1 "x\ny" 'x' (by decide),
   (c6_sanitize_characterization.2.2.2 "Fix bug.\n").1 (by decide)⟩

/-! ## C9: generate-count validation -/

/-- C9: every nonempty digit string whose value is between 1 and 5 resolves
strictly to that integer; the strings "0" and "6" and every nonempty
non-numeric string fail strict resolution with an error naming the generate
key; strict resolution runs the parser unchanged. -/
theorem c9_generate_validation :
    (∀ s : String, s ≠ "" → s.data.all Char.isDigit = true → 1 ≤ digitsToNat s.data →
      digitsToNat s.data ≤ 5 → parseGenerate (some s) = .ok (digitsToNat s.data)) ∧
    parseGenerate (some "0") = .error "Invalid config property generate: Must be greater than 0" ∧
    parseGenerate (some "6") = .error "Invalid config property generate: Must be less or equal to 5" ∧
    (∀ s : String, s ≠ "" → s.data.all Char.isDigit = false →
      parseGenerate (some s) = .error "Invalid config property generate: Must be an integer") ∧
    (∀ v : Option String, resolveKey false parseGenerate 1 v = parseGenerate v) := by
  refine ⟨?_, by decide, by decide, ?_, fun v => rfl⟩
  · intro s hne hdig h1 h5
    simp only [parseGenerate, hdig, if_neg hne, Bool.not_true, Bool.false_eq_true, if_false]
    rw [if_neg (by omega), if_neg (by omega)]
  · intro s hne hdig
    simp [parseGenerate, hne, hdig, invalidProp]

theorem c9_witness :
    parseGenerate (some "3") = .ok (digitsToNat "3".data) ∧
    parseGenerate (some "x1") = .error "Invalid config property generate: Must be an integer" :=
  ⟨c9_generate_validation.1 "3" (by decide) (by decide) (by decide) (by decide),
   c9_generate_validation.2.2.2.1 "x1" (by decide) (by decide)⟩

/-! ## Helper lemmas about deduplication -/

theorem dedupAux_nil_of_mem_seen :
    ∀ (l seen : List String), (∀ x ∈ l, x ∈ seen) → dedupAux l seen = [] := by
  intro l
  induction l with
  | nil => intro seen _; rfl
  | cons x xs ih =>
    intro seen h
    have hx : x ∈ seen := h x (List.mem_cons_self x xs)
    simp only [dedupAux, if_pos hx]
    exact ih seen (fun y hy => h y (List.mem_cons_of_mem x hy))

theorem sanitize_all_whitespace {s : String}
    (h : s.data.all jsWhitespaceChar = true) : sanitizeMessage s = "" := by
  have hdrop : s.data.dropWhile jsWhitespaceChar = [] :=
    List.dropWhile_eq_nil_iff.mpr (fun x hx => by
      exact List.all_eq_true.mp h x hx)
  have htrim : jsTrimList s.data = [] := by
    simp [jsTrimList, hdrop]
  show (⟨sanitizeCore s.data⟩ : String) = ""
  rw [show sanitizeCore s.data = dropTrailingPeriod (stripNewlines (jsTrimList s.data)) from rfl,
    htrim]
  rfl

/-- C10: the candidate filter drops only absent or empty-string contents; a
whitespace-only candidate passes it and sanitizes to the empty string, so a
run receiving only whitespace candidates yields the singleton empty-string
candidate list and is treated as having generated messages. -/
theorem c10_whitespace_candidates :
    (∀ c : Option String, keepChoice c = true ↔ ∃ s, c = some s ∧ s ≠ "") ∧
    keepChoice (some " ") = true ∧
    sanitizeMessage " " = "" ∧
    generateMessages (.success [some " "]) = .ok [""] ∧
    (∀ choices : List (Option String), choices ≠ [] →
      (∀ c ∈ choices, ∃ s, c = some s ∧ s ≠ "" ∧ s.data.all jsWhitespaceChar = true) →
      generateMessages (.success choices) = .ok [""]) := by
  refine ⟨?_, by decide, by decide, by decide, ?_⟩
  · intro c
    cases c with
    | none => simp [keepChoice]
    | some s => simp [keepChoice]
  · intro choices hne hall
    have hfilter : choices.filter keepChoice = choices := by
      refine List.filter_eq_self.mpr (fun c hc => ?_)
      obtain ⟨s, rfl, hs, _⟩ := hall c hc
      simpa [keepChoice] using hs
    have hmap : ∀ x ∈ (choices.filter keepChoice).map (fun c => sanitizeMessage (c.getD "")),
        x = "" := by
      intro x hx
      rw [hfilter] at hx
      obtain ⟨c, hc, rfl⟩ := List.mem_map.mp hx
      obtain ⟨s, rfl, _, hws⟩ := hall c hc
      exact sanitize_all_whitespace hws
    have hlen : (choices.filter keepChoice).map (fun c => sanitizeMessage (c.getD "")) ≠ [] := by
      rw [hfilter]
      simpa using hne
    have hdedup : processChoices choices = [""] := by
      unfold processChoices deduplicateMessages
      rcases hm : (choices.filter keepChoice).map (fun c => sanitizeMessage (c.getD "")) with
        _ | ⟨y, ys⟩
      · exact absurd hm hlen
      · have hy : y = "" := hmap y (by rw [hm]; exact List.mem_cons_self y ys)
        subst hy
        have hrest : dedupAux ys [""] = [] := by
          refine dedupAux_nil_of_mem_seen ys [""] (fun x hx => ?_)
          have : x = "" := hmap x (by rw [hm]; exact List.mem_cons_of_mem _ hx)
          simp [this]
        rw [hm]
        simp [dedupAux, hrest]
    show (if (processChoices choices).length = 0 then Except.error (CliError.known noMessagesMsg)
      else Except.ok (processChoices choices)) = Except.ok [""]
    rw [hdedup]
    simp

theorem c10_witness :
    keepChoice (some "x") = true ∧
    generateMessages (.success [some " ", some "\t"]) = .ok [""] :=
  ⟨(c10_whitespace_candidates.1 (some "x")).mpr ⟨"x", rfl, by decide⟩,
   c10_whitespace_candidates.2.2.2.2 [some " ", some "\t"] (by decide)
     (by
       intro c hc
       simp only [List.mem_cons, List.not_mem_nil, or_false] at hc
       rcases hc with rfl | rfl
       · exact ⟨" ", rfl, by decide, by decide⟩
       · exact ⟨"\t", rfl, by decide, by decide⟩)⟩

/-! ## Helper lemmas about the error classification -/

theorem neq_of_head_chars {x y : String} {a b : Char}
    (hx : x.data.head? = some a) (hy : y.data.head? = some b) (hab : a ≠ b) : x ≠ y := by
  intro h
  rw [h, hy] at hx
  exact hab (Option.some.inj hx).symm

theorem apiGenericMsg_head (st : Nat) (t : String) :
    (apiGenericMsg st t).data.head? = some 'O' := by
  simp only [apiGenericMsg, String.data_append]
  rfl

/-- C4: generateCommitMessage classifies failures into three mutually
distinct user-facing conditions: connectivity codes yield the network
message, an API-level status yields the payload message verbatim or a
generic status-derived message, and the caller turns an empty filtered
candidate list into the distinct no-messages condition. -/
theorem c4_error_classification :
    (∀ e : ApiFailure, (e.code = some "ENOTFOUND" ∨ e.code = some "ETIMEDOUT") →
      generateCommitMessage (.failure e) = .error (.known networkErrorMsg)) ∧
    (∀ (e : ApiFailure) (st : Nat), e.code ≠ some "ENOTFOUND" → e.code ≠ some "ETIMEDOUT" →
      e.respStatus = some st → st ≠ 0 →
      ((∀ m, e.payloadMsg = some m → m ≠ "" →
          generateCommitMessage (.failure e) = .error (.known m)) ∧
        (e.payloadMsg = none →
          generateCommitMessage (.failure e) =
            .error (.known (apiGenericMsg st e.respStatusText))))) ∧
    (∀ choices : List (Option String), choices.filter keepChoice = [] →
      generateMessages (.success choices) = .error (.known noMessagesMsg)) ∧
    (networkErrorMsg ≠ noMessagesMsg ∧
      (∀ (st : Nat) (t : String),
        apiGenericMsg st t ≠ networkErrorMsg ∧ apiGenericMsg st t ≠ noMessagesMsg)) := by
  refine ⟨?_, ?_, ?_, by decide, ?_⟩
  · intro e h
    simp only [generateCommitMessage, if_pos h]
  · intro e st h1 h2 hst hst0
    have hcond : ¬(e.code = some "ENOTFOUND" ∨ e.code = some "ETIMEDOUT") := by
      rintro (h | h)
      · exact h1 h
      · exact h2 h
    constructor
    · intro m hm hm0
      simp only [generateCommitMessage, if_neg hcond, hst, hm, if_pos hst0, if_pos hm0]
    · intro hm
      simp only [generateCommitMessage, if_neg hcond, hst, hm, if_pos hst0]
  · intro choices h
    have hp : processChoices choices = [] := by
      unfold processChoices
      rw [h]
      rfl
    show (if (processChoices choices).length = 0 then Except.error (CliError.known noMessagesMsg)
      else Except.ok (processChoices choices)) = _
    rw [hp]
    rfl
  · intro st t
    constructor
    · exact neq_of_head_chars (apiGenericMsg_head st t)
        (show networkErrorMsg.data.head? = some 'E' from by decide) (by decide)
    · exact neq_of_head_chars (apiGenericMsg_head st t)
        (show noMessagesMsg.data.head? = some 'N' from by decide) (by decide)

theorem c4_witness :
    generateCommitMessage (.failure ⟨some "ENOTFOUND", none, "", none, "m"⟩) =
      .error (.known networkErrorMsg) ∧
    generateCommitMessage (.failure ⟨none, some 401, "Unauthorized", some "Bad key", "m"⟩) =
      .error (.known "Bad key") ∧
    generateMessages (.success [none]) = .error (.known noMessagesMsg) ∧
    apiGenericMsg 500 "oops" ≠ networkErrorMsg :=
  ⟨c4_error_classification.1 _ (Or.inl rfl),
   (c4_error_classification.2.1 ⟨none, some 401, "Unauthorized", some "Bad key", "m"⟩ 401
      (by decide) (by decide) rfl (by decide)).1 "Bad key" rfl (by decide),
   c4_error_classification.2.2.1 [none] (by decide),
   (c4_error_classification.2.2.2.2 500 "oops").1⟩

/-! ## C8: staged-change collector -/

/-- C8: the collector queries the name-only staged file list first with the
default exclusions plus the caller's exclusions; an empty-after-trim output
is the distinguished absent value rather than an error; otherwise it queries
the full diff with the identical diff-algorithm setting and exclusion set
and returns both; and any git failure is raised as a user-facing error
carrying the original message. -/
theorem c8_staged_diff_collector :
    (∀ excl : List String,
      nameOnlyArgs excl =
        diffCached ++ ["--name-only"] ++ filesToExclude ++ excl.map excludeFromDiff ∧
      fullDiffArgs excl = diffCached ++ filesToExclude ++ excl.map excludeFromDiff) ∧
    (∀ (gitExec : List String → Except String String) (excl : List String) (out : String),
      gitExec (nameOnlyArgs excl) = .ok out → jsTrim out = "" →
      getStagedDiff gitExec excl = .ok none) ∧
    (∀ (gitExec : List String → Except String String) (excl : List String) (m : String),
      gitExec (nameOnlyArgs excl) = .error m →
      getStagedDiff gitExec excl = .error (.known ("Failed to get staged changes: " ++ m))) ∧
    (∀ (gitExec : List String → Except String String) (excl : List String) (out d : String),
      gitExec (nameOnlyArgs excl) = .ok out → jsTrim out ≠ "" →
      gitExec (fullDiffArgs excl) = .ok d →
      getStagedDiff gitExec excl = .ok (some ⟨splitLinesNonEmpty out, d⟩)) ∧
    (∀ (gitExec : List String → Except String String) (excl : List String) (out m : String),
      gitExec (nameOnlyArgs excl) = .ok out → jsTrim out ≠ "" →
      gitExec (fullDiffArgs excl) = .error m →
      getStagedDiff gitExec excl = .error (.known ("Failed to get staged changes: " ++ m))) := by
  refine ⟨fun excl => ⟨rfl, rfl⟩, ?_, ?_, ?_, ?_⟩
  · intro gitExec excl out hname htrim
    simp only [getStagedDiff, hname, if_pos htrim]
  · intro gitExec excl m hname
    simp only [getStagedDiff, hname]
  · intro gitExec excl out d hname htrim hfull
    simp only [getStagedDiff, hname, if_neg htrim, hfull]
  · intro gitExec excl out m hname htrim hfull
    simp only [getStagedDiff, hname, if_neg htrim, hfull]

theorem c8_witness :
    getStagedDiff (fun args => if args = nameOnlyArgs ["x"] then .ok "  \n " else .ok "d") ["x"] =
      .ok none ∧
    getStagedDiff (fun _ => .error "boom") [] =
      .error (.known ("Failed to get staged changes: " ++ "boom")) :=
  ⟨c8_staged_diff_collector.2.1 _ ["x"] "  \n " (by decide) (by decide),
   c8_staged_diff_collector.2.2.1 _ [] "boom" rfl⟩

/-! ## C2: single prefix application -/

theorem parse_ubp_norm_not_true {v : Option String} {fb : Bool}
    (hfb : parseUseBranchPrefixOpt (normUbpValue v) = .ok fb)
    (hnt : normUbpValue v ≠ some "true") : fb = false := by
  cases v with
  | none =>
    simp only [normUbpValue, parseUseBranchPrefixOpt] at hfb
    exact (Except.ok.inj hfb).symm
  | some s =>
    by_cases ht : truthyTokens.contains (lowerTrim s) = true
    · refine absurd ?_ hnt
      show (if truthyTokens.contains (lowerTrim s) = true then some "true" else some s) =
        some "true"
      rw [if_pos ht]
    · have hv : normUbpValue (some s) = some s := by
        show (if truthyTokens.contains (lowerTrim s) = true then some "true" else some s) =
          some s
        rw [if_neg ht]
      rw [hv] at hfb
      simp only [parseUseBranchPrefixOpt] at hfb
      by_cases hs : s = ""
      · rw [if_pos hs] at hfb
        exact (Except.ok.inj hfb).symm
      · rw [if_neg hs] at hfb
        rw [if_neg ht] at hfb
        by_cases hf : falsyTokens.contains (lowerTrim s) = true
        · rw [if_pos hf] at hfb
          exact (Except.ok.inj hfb).symm
        · rw [if_neg hf] at hfb
          exact absurd hfb (by simp)

/-- C2: when the effective use-branch-prefix (the OR of the CLI flag and the
persisted value) is true, the prefix is applied to each candidate once,
before selection, and createCommit is invoked with the re-application flag
false, so the message handed to git commit is exactly the selected
already-prefixed candidate. -/
theorem c2_single_prefix_application :
    (∀ (br : Except String String) (m : String), createCommitMessage br m false = m) ∧
    (∀ (br : Except String String) (cliFlag : Option Bool) (cfg : Bool)
      (messages : List String) (i : Nat), i < messages.length →
      effectiveUbp cliFlag cfg = true →
      committedMessage br cliFlag cfg messages i =
        applyBranchPrefix br (messages.getD i "") true) ∧
    (∀ (cliFlag : Option Bool) (file : RawConfig) (fb : Bool),
      parseUseBranchPrefixOpt (rawField (normalizeFileConfig file) ConfigKey.useBranchPrefix) =
        .ok fb →
      ∃ cv : Bool,
        parseUseBranchPrefixOpt
          (selectRawValue (cliRawOfFlag cliFlag) (normalizeFileConfig file)
            ConfigKey.useBranchPrefix) = .ok cv ∧
        effectiveUbp cliFlag cv = (cliFlag.getD false || fb)) := by
  refine ⟨fun br m => rfl, ?_, ?_⟩
  · intro br cliFlag cfg messages i hi heff
    unfold committedMessage candidatesShown
    rw [heff]
    have hlen : i < (messages.map (fun m => applyBranchPrefix br m true)).length := by
      simpa using hi
    show (messages.map (fun m => applyBranchPrefix br m true)).getD i "" = _
    rw [List.getD_eq_getElem _ _ hlen, List.getElem_map, ← List.getD_eq_getElem _ "" hi]
  · intro cliFlag file fb hfb
    have hraw : rawField (normalizeFileConfig file) ConfigKey.useBranchPrefix =
        normUbpValue file.useBranchPrefix := rfl
    rw [hraw] at hfb
    by_cases ht : normUbpValue file.useBranchPrefix = some "true"
    · have hfbt : fb = true := by
        rw [ht] at hfb
        have : parseUseBranchPrefixOpt (some "true") = .ok true := by decide
        rw [this] at hfb
        exact (Except.ok.inj hfb).symm
      refine ⟨true, ?_, by simp [effectiveUbp, hfbt]⟩
      have hsel : selectRawValue (cliRawOfFlag cliFlag) (normalizeFileConfig file)
          ConfigKey.useBranchPrefix = some "true" := by
        unfold selectRawValue
        rw [if_pos ⟨rfl, by rw [hraw]; exact ht⟩, hraw, ht]
      rw [hsel]
      decide
    · have hfbf : fb = false := parse_ubp_norm_not_true hfb ht
      have hsel : selectRawValue (cliRawOfFlag cliFlag) (normalizeFileConfig file)
          ConfigKey.useBranchPrefix =
          coalesce (rawField (cliRawOfFlag cliFlag) ConfigKey.useBranchPrefix)
            (normUbpValue file.useBranchPrefix) := by
        unfold selectRawValue
        rw [if_neg (by rintro ⟨_, h2⟩; rw [hraw] at h2; exact ht h2), hraw]
      cases cliFlag with
      | none =>
        refine ⟨fb, ?_, by simp [effectiveUbp, hfbf]⟩
        rw [hsel]
        have : rawField (cliRawOfFlag none) ConfigKey.useBranchPrefix = none := rfl
        rw [this]
        show parseUseBranchPrefixOpt (normUbpValue file.useBranchPrefix) = .ok fb
        exact hfb
      | some b =>
        refine ⟨b, ?_, by cases b <;> simp [effectiveUbp, hfbf]⟩
        rw [hsel]
        have : rawField (cliRawOfFlag (some b)) ConfigKey.useBranchPrefix =
            some (if b then "true" else "false") := rfl
        rw [this]
        cases b
        · exact show parseUseBranchPrefixOpt (some "false") = Except.ok false from by decide
        · exact show parseUseBranchPrefixOpt (some "true") = Except.ok true from by decide

theorem c2_witness :
    committedMessage (.ok "PROJ-7-cleanup") (some true) false ["Refactor utils"] 0 =
      applyBranchPrefix (.ok "PROJ-7-cleanup") (["Refactor utils"].getD 0 "") true :=
  c2_single_prefix_application.2.1 (.ok "PROJ-7-cleanup") (some true) false
    ["Refactor utils"] 0 (by decide) (by decide)

/-! ## C1: configuration precedence (corrected) -/

/-- C1 as stated is false on the code: with a persisted use-branch-prefix of
"true" and an explicit CLI/environment override of "false" (which resolves
to false on its own), getConfig resolves use-branch-prefix from the
persisted file value, to true, not from the override. -/
theorem c1_counterexample :
    parseUseBranchPrefixOpt (rawField cliOverrideFalse ConfigKey.useBranchPrefix) = .ok false ∧
    getConfig cliOverrideFalse filePersistTrue false =
      .ok ⟨some "sk-t", "en", 1, "", none, "gpt-3.5-turbo", 10000, 50, true⟩ := by
  decide

/-- C1 amended: for every configuration key except use-branch-prefix, the
CLI/environment override beats the persisted file value, which beats the
built-in default (the value each parser returns for an absent raw value);
for use-branch-prefix, a persisted value normalizing to "true" takes
precedence over any override, and otherwise the override wins. -/
theorem c1_amended_precedence :
    (∀ (cli file : RawConfig) (k : ConfigKey) (v : String), k ≠ ConfigKey.useBranchPrefix →
      rawField cli k = some v → selectRawValue cli (normalizeFileConfig file) k = some v) ∧
    (∀ (cli file : RawConfig) (k : ConfigKey), rawField cli k = none →
      selectRawValue cli (normalizeFileConfig file) k = rawField (normalizeFileConfig file) k) ∧
    (∀ cli file : RawConfig,
      rawField (normalizeFileConfig file) ConfigKey.useBranchPrefix = some "true" →
      selectRawValue cli (normalizeFileConfig file) ConfigKey.useBranchPrefix = some "true") ∧
    (∀ (cli file : RawConfig) (v : String),
      rawField (normalizeFileConfig file) ConfigKey.useBranchPrefix ≠ some "true" →
      rawField cli ConfigKey.useBranchPrefix = some v →
      selectRawValue cli (normalizeFileConfig file) ConfigKey.useBranchPrefix = some v) ∧
    (parseLocale none = .ok "en" ∧ parseGenerate none = .ok 1 ∧ parseCommitType none = .ok "" ∧
      parseProxy none = .ok none ∧ parseModel none = .ok "gpt-3.5-turbo" ∧
      parseTimeout none = .ok 10000 ∧ parseMaxLength none = .ok 50 ∧
      parseUseBranchPrefixOpt none = .ok false) := by
  refine ⟨?_, ?_, ?_, ?_, by decide⟩
  · intro cli file k v hk hv
    unfold selectRawValue
    rw [if_neg (by rintro ⟨h1, _⟩; exact hk h1)]
    simp [coalesce, hv]
  · intro cli file k hv
    unfold selectRawValue
    split
    · rfl
    · simp [coalesce, hv]
  · intro cli file h
    unfold selectRawValue
    rw [if_pos ⟨rfl, h⟩]
    exact h
  · intro cli file v hft hv
    unfold selectRawValue
    rw [if_neg (by rintro ⟨_, h2⟩; exact hft h2)]
    simp [coalesce, hv]

theorem c1_witness :
    selectRawValue { emptyRaw with generate := some "3" }
        (normalizeFileConfig { emptyRaw with generate := some "5" }) ConfigKey.generate =
      some "3" ∧
    selectRawValue cliOverrideFalse (normalizeFileConfig emptyRaw) ConfigKey.useBranchPrefix =
      some "false" :=
  ⟨c1_amended_precedence.1 { emptyRaw with generate := some "3" }
      { emptyRaw with generate := some "5" } ConfigKey.generate "3" (by decide) rfl,
   c1_amended_precedence.2.2.2.1 cliOverrideFalse emptyRaw "false" (by decide) rfl⟩

/-! ## C3: API key failures (corrected) -/

/-- C3 as stated is false on the code: in suppressed mode a missing API key
does not produce a user-facing error; resolution succeeds and the key is
simply left unset (OPENAI_KEY has no entry in DEFAULT_CONFIG, so the caught
error installs nothing). -/
theorem c3_counterexample :
    getConfig emptyRaw emptyRaw true =
      .ok ⟨none, "en", 1, "", none, "gpt-3.5-turbo", 10000, 50, false⟩ := by
  decide

theorem resolveKey_suppress_ok {α : Type} (p : Option String → Except String α)
    (fallback : α) (v : Option String) :
    ∃ r : α, resolveKey true p fallback v = .ok r ∧
      (∀ e, p v = .error e → r = fallback) := by
  cases hp : p v with
  | ok x =>
    refine ⟨x, ?_, fun e he => Except.noConfusion he⟩
    simp [resolveKey, hp]
  | error e0 =>
    refine ⟨fallback, ?_, fun _ _ => rfl⟩
    simp [resolveKey, hp]

/-- C3 amended: in strict mode a missing API key, or one not starting with
the provider prefix, aborts resolution with the user-facing message; in
suppressed mode resolution always succeeds, and on a failing key it
substitutes no default: the key is left unset. -/
theorem c3_amended_key_failure :
    (∀ cli file : RawConfig,
      selectRawValue cli (normalizeFileConfig file) ConfigKey.openaiKey = none →
      getConfig cli file false = .error openAIKeyMissingMsg) ∧
    (∀ cli file : RawConfig,
      selectRawValue cli (normalizeFileConfig file) ConfigKey.openaiKey = some "" →
      getConfig cli file false = .error openAIKeyMissingMsg) ∧
    (∀ (cli file : RawConfig) (k : String),
      selectRawValue cli (normalizeFileConfig file) ConfigKey.openaiKey = some k → k ≠ "" →
      ¬List.isPrefixOf "sk-".data k.data = true →
      getConfig cli file false = .error (invalidProp "OPENAI_KEY" "Must start with \"sk-\"")) ∧
    (∀ (cli file : RawConfig) (e : String),
      parseOpenAIKey (selectRawValue cli (normalizeFileConfig file) ConfigKey.openaiKey) =
        .error e →
      ∃ c : ValidConfig, getConfig cli file true = .ok c ∧ c.OPENAI_KEY = none) := by
  refine ⟨?_, ?_, ?_, ?_⟩
  · intro cli file hv
    unfold getConfig
    rw [show resolveKey false parseOpenAIKeyOpt none
        (selectRawValue cli (normalizeFileConfig file) ConfigKey.openaiKey) =
        parseOpenAIKeyOpt (selectRawValue cli (normalizeFileConfig file) ConfigKey.openaiKey)
      from rfl, hv]
    rfl
  · intro cli file hv
    unfold getConfig
    rw [show resolveKey false parseOpenAIKeyOpt none
        (selectRawValue cli (normalizeFileConfig file) ConfigKey.openaiKey) =
        parseOpenAIKeyOpt (selectRawValue cli (normalizeFileConfig file) ConfigKey.openaiKey)
      from rfl, hv]
    rfl
  · intro cli file k hv hne hpre
    unfold getConfig
    rw [show resolveKey false parseOpenAIKeyOpt none
        (selectRawValue cli (normalizeFileConfig file) ConfigKey.openaiKey) =
        parseOpenAIKeyOpt (selectRawValue cli (normalizeFileConfig file) ConfigKey.openaiKey)
      from rfl, hv]
    have hp : parseOpenAIKeyOpt (some k) =
        .error (invalidProp "OPENAI_KEY" "Must start with \"sk-\"") := by
      show Except.map some
        (if k = "" then Except.error openAIKeyMissingMsg
          else if List.isPrefixOf "sk-".data k.data = true then Except.ok k
          else Except.error (invalidProp "OPENAI_KEY" "Must start with \"sk-\"")) = _
      rw [if_neg hne, if_neg hpre]
      rfl
    rw [hp]
    rfl
  · intro cli file e he
    obtain ⟨r1, hr1, hr1e⟩ := resolveKey_suppress_ok parseOpenAIKeyOpt none
      (selectRawValue cli (normalizeFileConfig file) ConfigKey.openaiKey)
    have hr1n : r1 = none := by
      refine hr1e e ?_
      unfold parseOpenAIKeyOpt
      rw [he]
      rfl
    obtain ⟨r2, hr2, _⟩ := resolveKey_suppress_ok parseLocale "en"
      (selectRawValue cli (normalizeFileConfig file) ConfigKey.locale)
    obtain ⟨r3, hr3, _⟩ := resolveKey_suppress_ok parseGenerate 1
      (selectRawValue cli (normalizeFileConfig file) ConfigKey.generate)
    obtain ⟨r4, hr4, _⟩ := resolveKey_suppress_ok parseCommitType ""
      (selectRawValue cli (normalizeFileConfig file) ConfigKey.commitType)
    obtain ⟨r5, hr5, _⟩ := resolveKey_suppress_ok parseProxy none
      (selectRawValue cli (normalizeFileConfig file) ConfigKey.proxy)
    obtain ⟨r6, hr6, _⟩ := resolveKey_suppress_ok parseModel "gpt-3.5-turbo"
      (selectRawValue cli (normalizeFileConfig file) ConfigKey.model)
    obtain ⟨r7, hr7, _⟩ := resolveKey_suppress_ok parseTimeout 10000
      (selectRawValue cli (normalizeFileConfig file) ConfigKey.timeout)
    obtain ⟨r8, hr8, _⟩ := resolveKey_suppress_ok parseMaxLength 50
      (selectRawValue cli (normalizeFileConfig file) ConfigKey.maxLength)
    obtain ⟨r9, hr9, _⟩ := resolveKey_suppress_ok parseUseBranchPrefixOpt false
      (selectRawValue cli (normalizeFileConfig file) ConfigKey.useBranchPrefix)
    refine ⟨⟨r1, r2, r3, r4, r5, r6, r7, r8, r9⟩, ?_, by simpa using hr1n⟩
    unfold getConfig
    rw [hr1, hr2, hr3, hr4, hr5, hr6, hr7, hr8, hr9]
    rfl

theorem c3_witness :
    getConfig emptyRaw filePersistTrue false = .error openAIKeyMissingMsg ∧
    (∃ c : ValidConfig, getConfig filePersistTrue emptyRaw true = .ok c ∧ c.OPENAI_KEY = none) :=
  ⟨c3_amended_key_failure.1 emptyRaw filePersistTrue rfl,
   c3_amended_key_failure.2.2.2 filePersistTrue emptyRaw openAIKeyMissingMsg rfl⟩

/-! ## C7: idempotence of sanitize-then-deduplicate -/

theorem ws_of_newline {c : Char} (h : newlineChar c = true) : jsWhitespaceChar c = true := by
  have : c = '\n' ∨ c = '\r' := by simpa [newlineChar] using h
  rcases this with rfl | rfl <;> decide

theorem not_newline_of_not_ws {c : Char} (h : jsWhitespaceChar c = false) :
    newlineChar c = false := by
  cases hn : newlineChar c
  · rfl
  · rw [ws_of_newline hn] at h
    cases h

theorem wordChar_not_ws {c : Char} (h : wordChar c = true) : jsWhitespaceChar c = false := by
  cases hws : jsWhitespaceChar c
  · rfl
  · exfalso
    have : ((((c = ' ' ∨ c = '\t') ∨ c = '\n') ∨ c = '\r') ∨ c = '\x0b') ∨ c = '\x0c' := by
      simpa [jsWhitespaceChar] using hws
    rcases this with ⟨⟨⟨⟨rfl | rfl⟩ | rfl⟩ | rfl⟩ | rfl⟩ | rfl <;> exact absurd h (by decide)

theorem wordChar_ne_dot {c : Char} (h : wordChar c = true) : c ≠ '.' := by
  intro hc
  subst hc
  exact absurd h (by decide)

theorem getLast?_of_suffix {l₁ l₂ : List Char} (h : l₁ <:+ l₂) (hne : l₁ ≠ []) :
    l₂.getLast? = l₁.getLast? := by
  obtain ⟨t, rfl⟩ := h
  rw [List.getLast?_append]
  cases hg : l₁.getLast? with
  | none => exact absurd (List.getLast?_eq_none_iff.mp hg) hne
  | some a => simp

theorem head?_dropWhile_ws {l : List Char} {h : Char}
    (hh : (l.dropWhile jsWhitespaceChar).head? = some h) : jsWhitespaceChar h = false := by
  have hm := List.head?_dropWhile_not jsWhitespaceChar l
  rw [hh] at hm
  exact hm

theorem jsTrimList_head {l : List Char} {h : Char}
    (hh : (jsTrimList l).head? = some h) : jsWhitespaceChar h = false := by
  unfold jsTrimList at hh
  rw [List.head?_reverse] at hh
  have hBne : (l.dropWhile jsWhitespaceChar).reverse.dropWhile jsWhitespaceChar ≠ [] := by
    intro hB0
    rw [hB0] at hh
    cases hh
  have hsuf : (l.dropWhile jsWhitespaceChar).reverse.dropWhile jsWhitespaceChar <:+
      (l.dropWhile jsWhitespaceChar).reverse := List.dropWhile_suffix _
  have h2 : ((l.dropWhile jsWhitespaceChar).reverse).getLast? = some h := by
    rw [getLast?_of_suffix hsuf hBne]
    exact hh
  rw [List.getLast?_reverse] at h2
  exact head?_dropWhile_ws h2

theorem jsTrimList_getLast {l : List Char} {h : Char}
    (hh : (jsTrimList l).getLast? = some h) : jsWhitespaceChar h = false := by
  unfold jsTrimList at hh
  rw [List.getLast?_reverse] at hh
  exact head?_dropWhile_ws hh

theorem filter_head?_eq {q : Char → Bool} {t : List Char} {h : Char}
    (hh : t.head? = some h) (hq : q h = true) : (t.filter q).head? = some h := by
  cases t with
  | nil => cases hh
  | cons c cs =>
    have hc : c = h := by simpa using hh
    subst hc
    rw [List.filter_cons_of_pos hq, List.head?_cons]

theorem stripNewlines_head {t : List Char} {h : Char} (hh : t.head? = some h)
    (hws : jsWhitespaceChar h = false) : (stripNewlines t).head? = some h :=
  filter_head?_eq hh (by simp [not_newline_of_not_ws hws])

theorem stripNewlines_getLast {t : List Char} {h : Char} (hh : t.getLast? = some h)
    (hws : jsWhitespaceChar h = false) : (stripNewlines t).getLast? = some h := by
  have h1 : (t.reverse).head? = some h := by
    rw [List.head?_reverse]
    exact hh
  have h2 := filter_head?_eq (q := fun c => !newlineChar c) h1
    (by simp [not_newline_of_not_ws hws])
  rw [List.filter_reverse, List.head?_reverse] at h2
  exact h2

theorem sanitizedChars_sanitizeCore (l : List Char) : sanitizedChars (sanitizeCore l) := by
  have t_head : ∀ h, (stripNewlines (jsTrimList l)).head? = some h →
      jsWhitespaceChar h = false := by
    intro h hh
    cases hu : (jsTrimList l).head? with
    | none =>
      rw [List.head?_eq_none_iff.mp hu] at hh
      cases hh
    | some h0 =>
      have h0ws := jsTrimList_head hu
      have hs := stripNewlines_head hu h0ws
      have : h = h0 := Option.some.inj (hh.symm.trans hs)
      rw [this]
      exact h0ws
  have t_last : ∀ h, (stripNewlines (jsTrimList l)).getLast? = some h →
      jsWhitespaceChar h = false := by
    intro h hh
    cases hu : (jsTrimList l).getLast? with
    | none =>
      rw [List.getLast?_eq_none_iff.mp hu] at hh
      cases hh
    | some h0 =>
      have h0ws := jsTrimList_getLast hu
      have hs := stripNewlines_getLast hu h0ws
      have : h = h0 := Option.some.inj (hh.symm.trans hs)
      rw [this]
      exact h0ws
  have t_nl : ∀ c ∈ stripNewlines (jsTrimList l), newlineChar c = false := by
    intro c hc
    have := (List.mem_filter.mp hc).2
    simpa using this
  by_cases hE : endsWithWordDot (stripNewlines (jsTrimList l)) = true
  · -- the final period is dropped; the new last character is a word character
    have hEm : (match (stripNewlines (jsTrimList l)).reverse with
        | a :: c :: _ => decide (a = '.') && wordChar c
        | _ => false) = true := hE
    rcases hr : (stripNewlines (jsTrimList l)).reverse with _ | ⟨a, _ | ⟨c, rest⟩⟩ <;>
      rw [hr] at hEm
    · cases hEm
    · cases hEm
    · have hac : a = '.' ∧ wordChar c = true := by
        have : (decide (a = '.') && wordChar c) = true := hEm
        simpa using this
      have ht2 : stripNewlines (jsTrimList l) = (rest.reverse ++ [c]) ++ [a] := by
        have := congrArg List.reverse hr
        simpa [List.reverse_cons, List.append_assoc] using this
      have hdrop : sanitizeCore l = rest.reverse ++ [c] := by
        show dropTrailingPeriod (stripNewlines (jsTrimList l)) = _
        rw [dropTrailingPeriod_of_endsWith hE, ht2, List.dropLast_concat]
      rw [show sanitizedChars (sanitizeCore l) =
        sanitizedChars (rest.reverse ++ [c]) from by rw [hdrop]]
      refine ⟨?_, ?_, ?_, ?_⟩
      · intro h hh
        refine t_head h ?_
        rw [ht2, List.head?_append, hh]
        rfl
      · intro h hh
        rw [List.getLast?_concat] at hh
        have : h = c := (Option.some.inj hh).symm
        rw [this]
        exact wordChar_not_ws hac.2
      · intro x hx
        refine t_nl x ?_
        rw [ht2]
        exact List.mem_append_left _ hx
      · show endsWithWordDot (rest.reverse ++ [c]) = false
        unfold endsWithWordDot
        rw [show (rest.reverse ++ [c]).reverse = c :: rest from by simp]
        cases rest with
        | nil => rfl
        | cons c' r' =>
          show (decide (c = '.') && wordChar c') = false
          rw [decide_eq_false (wordChar_ne_dot hac.2)]
          rfl
  · have hE' : endsWithWordDot (stripNewlines (jsTrimList l)) = false := by
      cases h : endsWithWordDot (stripNewlines (jsTrimList l))
      · rfl
      · exact absurd h hE
    have hid : sanitizeCore l = stripNewlines (jsTrimList l) :=
      dropTrailingPeriod_of_not_endsWith hE'
    rw [show sanitizedChars (sanitizeCore l) =
      sanitizedChars (stripNewlines (jsTrimList l)) from by rw [hid]]
    exact ⟨t_head, t_last, t_nl, hE'⟩

theorem dropWhile_eq_self_of_head {l : List Char}
    (h : ∀ x, l.head? = some x → jsWhitespaceChar x = false) :
    l.dropWhile jsWhitespaceChar = l := by
  cases l with
  | nil => rfl
  | cons c cs => exact List.dropWhile_cons_of_neg (by simp [h c rfl])

theorem jsTrimList_eq_self {l : List Char}
    (hhead : ∀ x, l.head? = some x → jsWhitespaceChar x = false)
    (hlast : ∀ x, l.getLast? = some x → jsWhitespaceChar x = false) :
    jsTrimList l = l := by
  unfold jsTrimList
  rw [dropWhile_eq_self_of_head hhead]
  rw [dropWhile_eq_self_of_head (fun x hx => hlast x (by rw [← List.head?_reverse]; exact hx))]
  exact List.reverse_reverse l

theorem stripNewlines_eq_self {l : List Char} (h : ∀ c ∈ l, newlineChar c = false) :
    stripNewlines l = l :=
  List.filter_eq_self.mpr (fun a ha => by simp [h a ha])

theorem sanitizeCore_of_sanitized {u : List Char} (hu : sanitizedChars u) :
    sanitizeCore u = u := by
  obtain ⟨h1, h2, h3, h4⟩ := hu
  unfold sanitizeCore
  rw [jsTrimList_eq_self h1 h2, stripNewlines_eq_self h3,
    dropTrailingPeriod_of_not_endsWith h4]

theorem sanitizeMessage_idem (s : String) :
    sanitizeMessage (sanitizeMessage s) = sanitizeMessage s := by
  show (⟨sanitizeCore (sanitizeCore s.data)⟩ : String) = ⟨sanitizeCore s.data⟩
  rw [sanitizeCore_of_sanitized (sanitizedChars_sanitizeCore s.data)]

theorem mem_dedupAux {a : String} :
    ∀ (l seen : List String), a ∈ dedupAux l seen ↔ (a ∈ l ∧ a ∉ seen) := by
  intro l
  induction l with
  | nil =>
    intro seen
    simp [dedupAux]
  | cons x xs ih =>
    intro seen
    by_cases hx : x ∈ seen
    · rw [show dedupAux (x :: xs) seen = dedupAux xs seen from by simp [dedupAux, hx]]
      rw [ih seen]
      constructor
      · rintro ⟨h1, h2⟩
        exact ⟨List.mem_cons_of_mem x h1, h2⟩
      · rintro ⟨h1, h2⟩
        rcases List.mem_cons.mp h1 with rfl | h1'
        · exact absurd hx h2
        · exact ⟨h1', h2⟩
    · rw [show dedupAux (x :: xs) seen = x :: dedupAux xs (x :: seen) from by
        simp [dedupAux, hx]]
      constructor
      · intro h
        rcases List.mem_cons.mp h with rfl | h'
        · exact ⟨List.mem_cons_self _ _, hx⟩
        · obtain ⟨h1, h2⟩ := (ih (x :: seen)).mp h'
          exact ⟨List.mem_cons_of_mem x h1, fun hs => h2 (List.mem_cons_of_mem x hs)⟩
      · rintro ⟨h1, h2⟩
        by_cases hax : a = x
        · subst hax
          exact List.mem_cons_self _ _
        · rcases List.mem_cons.mp h1 with h | h1'
          · exact absurd h hax
          · refine List.mem_cons_of_mem x ((ih (x :: seen)).mpr ⟨h1', fun hs => ?_⟩)
            rcases List.mem_cons.mp hs with h | h
            · exact hax h
            · exact h2 h

theorem dedupAux_nodup : ∀ (l seen : List String), (dedupAux l seen).Nodup := by
  intro l
  induction l with
  | nil =>
    intro seen
    exact List.nodup_nil
  | cons x xs ih =>
    intro seen
    by_cases hx : x ∈ seen
    · rw [show dedupAux (x :: xs) seen = dedupAux xs seen from by simp [dedupAux, hx]]
      exact ih seen
    · rw [show dedupAux (x :: xs) seen = x :: dedupAux xs (x :: seen) from by
        simp [dedupAux, hx]]
      refine List.nodup_cons.mpr ⟨fun hmem => ?_, ih (x :: seen)⟩
      exact ((mem_dedupAux _ _).mp hmem).2 (List.mem_cons_self _ _)

theorem dedupAux_eq_self :
    ∀ (u seen : List String), u.Nodup → (∀ x ∈ u, x ∉ seen) → dedupAux u seen = u := by
  intro u
  induction u with
  | nil =>
    intro seen _ _
    rfl
  | cons x xs ih =>
    intro seen hnd hdisj
    have hx : x ∉ seen := hdisj x (List.mem_cons_self _ _)
    rw [show dedupAux (x :: xs) seen = x :: dedupAux xs (x :: seen) from by
      simp [dedupAux, hx]]
    obtain ⟨hxxs, hnd'⟩ := List.nodup_cons.mp hnd
    congr 1
    refine ih (x :: seen) hnd' (fun y hy hmem => ?_)
    rcases List.mem_cons.mp hmem with rfl | h
    · exact hxxs hy
    · exact hdisj y (List.mem_cons_of_mem x hy) h

theorem map_id_of_mem {l : List String} {f : String → String}
    (h : ∀ x ∈ l, f x = x) : l.map f = l := by
  rw [List.map_congr_left h]
  exact List.map_id l

/-- C7: the candidate post-processing is idempotent: applying
sanitize-then-deduplicate twice to any candidate sequence yields exactly the
sequence produced by applying it once. -/
theorem c7_sanitize_dedup_idempotent :
    ∀ l : List String, sanitizeAndDedup (sanitizeAndDedup l) = sanitizeAndDedup l := by
  intro l
  show deduplicateMessages ((deduplicateMessages (l.map sanitizeMessage)).map sanitizeMessage) =
    deduplicateMessages (l.map sanitizeMessage)
  have hfix : (deduplicateMessages (l.map sanitizeMessage)).map sanitizeMessage =
      deduplicateMessages (l.map sanitizeMessage) := by
    refine map_id_of_mem (fun x hx => ?_)
    obtain ⟨hx1, _⟩ := (mem_dedupAux _ _).mp hx
    obtain ⟨y, _, rfl⟩ := List.mem_map.mp hx1
    exact sanitizeMessage_idem y
  rw [hfix]
  exact dedupAux_eq_self _ [] (dedupAux_nodup _ _) (fun x _ => List.not_mem_nil x)

theorem c7_witness :
    sanitizeAndDedup (sanitizeAndDedup ["Fix bug.\n", "Fix bug", " a ", "a"]) =
      sanitizeAndDedup ["Fix bug.\n", "Fix bug", " a ", "a"] :=
  c7_sanitize_dedup_idempotent ["Fix bug.\n", "Fix bug", " a ", "a"]

/-! ## C5: branch prefix derivation -/

theorem tryTicketAt_shape {l t : List Char} (h : tryTicketAt l = some t) :
    ∃ ls ds : List Char, ls ≠ [] ∧ ds ≠ [] ∧ (∀ c ∈ ls, c.isAlpha = true) ∧
      (∀ c ∈ ds, c.isDigit = true) ∧ t = ls ++ '-' :: ds := by
  unfold tryTicketAt at h
  split at h
  · cases h
  · rename_i hletters
    split at h
    · rename_i hd rest hdrop
      split at h
      · split at h
        · cases h
        · rename_i hdash hdigits
          refine ⟨l.takeWhile Char.isAlpha, rest.takeWhile Char.isDigit, ?_, ?_, ?_, ?_, ?_⟩
          · intro h0
            exact hletters (by rw [h0]; rfl)
          · intro h0
            exact hdigits (by rw [h0]; rfl)
          · exact fun c hc => List.mem_takeWhile_imp hc
          · exact fun c hc => List.mem_takeWhile_imp hc
          · have ht := Option.some.inj h
            rw [← ht]
      · cases h
    · cases h

theorem takeWhile_append_stop {p : Char → Bool} :
    ∀ (l₁ : List Char) (x : Char) (l₂ : List Char), (∀ c ∈ l₁, p c = true) → p x = false →
      (l₁ ++ x :: l₂).takeWhile p = l₁ := by
  intro l₁
  induction l₁ with
  | nil =>
    intro x l₂ _ hx
    exact List.takeWhile_cons_of_neg (by simp [hx])
  | cons c cs ih =>
    intro x l₂ hall hx
    have hc : p c = true := hall c (List.mem_cons_self _ _)
    show ((c :: (cs ++ x :: l₂)).takeWhile p) = c :: cs
    rw [List.takeWhile_cons_of_pos hc, ih x l₂ (fun d hd => hall d (List.mem_cons_of_mem c hd)) hx]

theorem tryTicketAt_isSome_at {ls ds post : List Char}
    (hls : ls ≠ []) (hds : ds ≠ []) (hla : ∀ c ∈ ls, c.isAlpha = true)
    (hdd : ∀ c ∈ ds, c.isDigit = true) :
    (tryTicketAt (ls ++ '-' :: (ds ++ post))).isSome = true := by
  have htake : (ls ++ '-' :: (ds ++ post)).takeWhile Char.isAlpha = ls :=
    takeWhile_append_stop ls '-' (ds ++ post) hla (by decide)
  unfold tryTicketAt
  rw [htake, List.drop_left]
  rw [if_neg (by rw [List.isEmpty_eq_false.mpr hls]; exact Bool.false_ne_true)]
  rcases ds with _ | ⟨d, ds'⟩
  · exact absurd rfl hds
  · have hd : Char.isDigit d = true := hdd d (List.mem_cons_self _ _)
    show (if ('-' : Char) = '-' then
        if (((d :: ds') ++ post).takeWhile Char.isDigit).isEmpty then none
        else some (ls ++ '-' :: ((d :: ds') ++ post).takeWhile Char.isDigit)
      else none).isSome = true
    rw [if_pos rfl]
    rw [show ((d :: ds') ++ post).takeWhile Char.isDigit =
      d :: (ds' ++ post).takeWhile Char.isDigit from List.takeWhile_cons_of_pos hd]
    rfl

theorem findTicket_isSome_of_suffix :
    ∀ l suf : List Char, suf <:+ l → (tryTicketAt suf).isSome = true →
      (findTicket l).isSome = true := by
  intro l
  induction l with
  | nil =>
    intro suf hsuf hsome
    rw [List.eq_nil_of_suffix_nil hsuf] at hsome
    exact absurd hsome (by decide)
  | cons c cs ih =>
    intro suf hsuf hsome
    rcases List.suffix_cons_iff.mp hsuf with rfl | h
    · unfold findTicket
      cases ht : tryTicketAt (c :: cs) with
      | some m => rfl
      | none =>
        rw [ht] at hsome
        exact absurd hsome (by decide)
    · unfold findTicket
      cases ht : tryTicketAt (c :: cs) with
      | some m => rfl
      | none => exact ih suf h hsome

theorem findTicket_eq_some {l t : List Char} (h : findTicket l = some t) :
    ∃ suf : List Char, tryTicketAt suf = some t := by
  induction l with
  | nil => cases h
  | cons c cs ih =>
    unfold findTicket at h
    cases ht : tryTicketAt (c :: cs) with
    | some m =>
      rw [ht] at h
      exact ⟨c :: cs, ht.trans h⟩
    | none =>
      rw [ht] at h
      exact ih h

/-- C5: branch-prefix derivation is a pure function of the branch name in
which the ticket check takes precedence: when the leftmost ticket match (one
or more letters, a hyphen, one or more digits) exists, the prefix is that
match upper-cased, and every branch name containing the pattern has such a
match; when no match exists, the workflow segment is stripped, dashes and
underscores become spaces, whitespace runs collapse and the result is
trimmed. ABC-42-add-feature yields ABC-42, JIRA-123-fix-thing yields
JIRA-123, feature/my-cool-thing yields my cool thing. -/
theorem c5_branch_derivation :
    (∀ (bn : String) (t : List Char), findTicket bn.data = some t →
      branchPrefixOf bn = ⟨t.map Char.toUpper⟩ ∧
      ∃ ls ds : List Char, ls ≠ [] ∧ ds ≠ [] ∧ (∀ c ∈ ls, c.isAlpha = true) ∧
        (∀ c ∈ ds, c.isDigit = true) ∧ t = ls ++ '-' :: ds) ∧
    (∀ (bn : String) (pre ls ds post : List Char),
      bn.data = pre ++ (ls ++ '-' :: (ds ++ post)) → ls ≠ [] → ds ≠ [] →
      (∀ c ∈ ls, c.isAlpha = true) → (∀ c ∈ ds, c.isDigit = true) →
      (findTicket bn.data).isSome = true) ∧
    (∀ bn : String, findTicket bn.data = none →
      branchPrefixOf bn = ⟨cleanBranchCore bn.data⟩) ∧
    branchPrefixOf "ABC-42-add-feature" = "ABC-42" ∧
    branchPrefixOf "JIRA-123-fix-thing" = "JIRA-123" ∧
    branchPrefixOf "feature/my-cool-thing" = "my cool thing" := by
  refine ⟨?_, ?_, ?_, by decide, by decide, by decide⟩
  · intro bn t h
    constructor
    · unfold branchPrefixOf
      rw [h]
    · obtain ⟨suf, hsuf⟩ := findTicket_eq_some h
      exact tryTicketAt_shape hsuf
  · intro bn pre ls ds post heq hls hds hla hdd
    refine findTicket_isSome_of_suffix bn.data (ls ++ '-' :: (ds ++ post)) ⟨pre, heq.symm⟩ ?_
    exact tryTicketAt_isSome_at hls hds hla hdd
  · intro bn h
    unfold branchPrefixOf
    rw [h]

theorem c5_witness :
    (findTicket "feat/AB-12x".data).isSome = true ∧
    branchPrefixOf "feat/nothing here2" = ⟨cleanBranchCore "feat/nothing here2".data⟩ :=
  ⟨c5_branch_derivation.2.1 "feat/AB-12x" "feat/".data "AB".data "12".data "x".data
      (by decide) (by decide) (by decide) (by decide) (by decide),
   c5_branch_derivation.2.2.1 "feat/nothing here2" (by decide)⟩

